import Mathlib

/-!
Verification of the `NiDaqGeneric` device controller
(`src/lokomat_fes/nidaq/devices.py` of pariterre/lokomat_fes).

The embedding translates the Python class into pure Lean definitions:

* machine reals become exact rationals `ℚ` (`numpy.linspace` and Python's
  `int()` are given exact rational semantics);
* the mutable `NiDaqData` object graph becomes an explicit heap
  (`List NiDaqData` indexed by addresses), so that "the live store" and
  "a defensive copy" are genuinely different addresses;
* Python exceptions become `Except String`;
* side effects of the lifecycle methods (callback notifications, task
  start/stop, data reset) are recorded as an explicit event trace in
  statement order;
* the callback dictionaries (`dict` keyed by `id(callback)`) become
  association lists in insertion order with CPython's overwrite-in-place
  and changed-size-during-iteration semantics.

`NiDaqData` itself (`lokomat_fes/nidaq/data.py`) is not among the given
sources; it is modelled from the spec's interface description (see the
doc comments marked "Modelled from the spec").
-/

namespace LokomatFes

/-- Python builtin `int()` applied to a real value: truncation toward zero,
here on exact rationals (`Int.tdiv` truncates toward zero and `q.den > 0`). -/
def pyInt (q : ℚ) : ℤ := Int.tdiv q.num (q.den : ℤ)

/-- Exact-rational semantics of `numpy.linspace(a, b, num)` with the default
`endpoint=True`: `num` evenly spaced points from `a` to `b` inclusive,
i.e. element `i` is `a + i * (b - a) / (num - 1)` (for `num = 1` the single
element is `a`, and for `num = 0` the list is empty; the division by `0` in
`ℚ` yields `0`, matching both cases).  `none` models the `ValueError` NumPy
raises when `num` is negative. -/
def linspace (a b : ℚ) (num : ℤ) : Option (List ℚ) :=
  if num < 0 then none
  else some ((List.range num.toNat).map
    (fun (i : ℕ) => a + (i : ℚ) * (b - a) / ((num : ℚ) - 1)))

/-- Modelled from the spec: the DataStore collaborator `NiDaqData`
(`lokomat_fes/nidaq/data.py`, not among the given sources).  Per spec section
2 it is "an append-only ordered sequence of timestamped blocks"; a block is a
pair (time vector, sample matrix). -/
structure NiDaqData where
  blocks : List (List ℚ × List (List ℚ))
deriving DecidableEq

/-- Modelled from the spec: `NiDaqData()` constructs an empty store. -/
def NiDaqData.empty : NiDaqData := ⟨[]⟩

/-- Modelled from the spec: `NiDaqData.add(t, data)` appends one timestamped
block (spec section 6: collaborator interface `add(time_vector, sample_matrix)`). -/
def NiDaqData.add (st : NiDaqData) (t : List ℚ) (d : List (List ℚ)) : NiDaqData :=
  ⟨st.blocks ++ [(t, d)]⟩

/-- Modelled from the spec: `NiDaqData.sample_block(index=-1, unsafe=True)` —
indexed block retrieval where index `-1` means most recent, returning
`(None, None)` on an empty store (spec section 6).  Only the `index=-1` form is
used by `devices.py`. -/
def NiDaqData.sample_block_last (st : NiDaqData) : Option (List ℚ × List (List ℚ)) :=
  st.blocks.getLast?

/-- Modelled from the spec: `NiDaqData.t0_offset`, the "offset correction" —
"a store-defined adjustment applied to the first timestamp of a new session to
align with whatever zero-reference the store uses" (spec glossary).  The
store's zero-reference is the first timestamp recorded in the session, so the
offset is the first entry of the first block's time vector (`0` while the
store is empty and no reference exists yet). -/
def NiDaqData.t0_offset (st : NiDaqData) : ℚ :=
  match st.blocks.head? with
  | some (t, _) => t.headD 0
  | none => 0

/-- A Python `dict` keyed by `id(callback)`, as an association list in
insertion order.  The key models the Python object identity of the callback. -/
abbrev Registry (α : Type) : Type := List (ℕ × α)

/-- The keys of a registry, in iteration (= insertion) order. -/
def dictKeys {α : Type} (r : Registry α) : List ℕ := List.map Prod.fst r

/-- `d[k] = v`: a Python dict assignment overwrites in place when the key is
present (keeping its position in iteration order) and appends otherwise. -/
def dictInsert {α : Type} (k : ℕ) (v : α) (r : Registry α) : Registry α :=
  if k ∈ dictKeys r then List.map (fun p => if p.1 = k then (k, v) else p) r
  else r ++ [(k, v)]

/-- `del d[k]`: remove the entry with key `k`. -/
def dictErase {α : Type} (k : ℕ) (r : Registry α) : Registry α :=
  List.filter (fun p => p.1 != k) r

/-- Observable side effects of the controller, in statement order: callback
notifications (with the arguments the source passes), the `_reset_data` call,
and the hardware task transitions. -/
inductive Event where
  | notifyStart (key : ℕ)
  | notifyDataReady (key : ℕ) (t : List ℚ) (d : List (List ℚ))
  | notifyStop (key : ℕ) (storeAddr : ℕ)
  | resetData
  | taskStart
  | taskStop
deriving DecidableEq

/-- The state of a `NiDaqGeneric` object (`devices.py` lines 9-38) together
with the heap of `NiDaqData` objects it has allocated.  `heap` holds every
store object ever created (addresses are list indices, allocation appends);
`dataAddr` is the reference `self._data`.  The three registries are the
callback dicts; their values carry no information here (`Unit`) because the
controller only ever iterates keys and calls the stored function. -/
structure NiDaqGeneric where
  numChannels : ℤ
  frameRate : ℤ
  timeBetweenSamples : ℚ
  nSamplesPerBlock : ℤ
  heap : List NiDaqData
  dataAddr : ℕ
  isRecording : Bool
  taskRunning : Bool
  onStart : Registry Unit
  onDataReady : Registry Unit
  onStop : Registry Unit
deriving DecidableEq

/-- `NiDaqGeneric.__init__(num_channels, frame_rate, time_between_samples)`
(lines 10-38): store the configuration,
`_n_samples_per_block = int(self._time_between_samples * self._frame_rate)`
(line 25), allocate a fresh empty `NiDaqData` (line 28), start idle with empty
callback dicts (lines 31-34).  The source performs no validation of any
parameter and cannot fail (the `_setup_task` hardware glue is outside the
model; it reads but never writes these fields). -/
def construct (numChannels frameRate : ℤ) (timeBetweenSamples : ℚ) : NiDaqGeneric where
  numChannels := numChannels
  frameRate := frameRate
  timeBetweenSamples := timeBetweenSamples
  nSamplesPerBlock := pyInt (timeBetweenSamples * (frameRate : ℚ))
  heap := [NiDaqData.empty]
  dataAddr := 0
  isRecording := false
  taskRunning := false
  onStart := []
  onDataReady := []
  onStop := []

/-- The store object currently referenced by `self._data`. -/
def storeOf (s : NiDaqGeneric) : NiDaqData := s.heap.getD s.dataAddr NiDaqData.empty

/-- Property `dt` (lines 50-53): `1 / self.frame_rate`. -/
def dtOf (s : NiDaqGeneric) : ℚ := 1 / (s.frameRate : ℚ)

/-- `n_frames = int(self.frame_rate * self._time_between_samples)` as
recomputed inside `_data_has_arrived` (line 128). -/
def nFramesOf (s : NiDaqGeneric) : ℤ := pyInt ((s.frameRate : ℚ) * s.timeBetweenSamples)

/-- The construction-time invariant that `_n_samples_per_block` agrees with
the `n_frames` the handler recomputes. -/
def configWF (s : NiDaqGeneric) : Prop := nFramesOf s = s.nSamplesPerBlock

/-- `register_to_start_recording(callback)` (lines 55-57). -/
def register_to_start_recording (s : NiDaqGeneric) (k : ℕ) : NiDaqGeneric :=
  { s with onStart := dictInsert k () s.onStart }

/-- `unregister_to_start_recording(callback)` (lines 59-62). -/
def unregister_to_start_recording (s : NiDaqGeneric) (k : ℕ) : NiDaqGeneric :=
  { s with onStart := if k ∈ dictKeys s.onStart then dictErase k s.onStart else s.onStart }

/-- `register_to_data_ready(callback)` (lines 64-66). -/
def register_to_data_ready (s : NiDaqGeneric) (k : ℕ) : NiDaqGeneric :=
  { s with onDataReady := dictInsert k () s.onDataReady }

/-- `unregister_to_data_ready(callback)` (lines 68-71). -/
def unregister_to_data_ready (s : NiDaqGeneric) (k : ℕ) : NiDaqGeneric :=
  { s with onDataReady := if k ∈ dictKeys s.onDataReady then dictErase k s.onDataReady else s.onDataReady }

/-- `register_to_stop_recording(callback)` (lines 73-75). -/
def register_to_stop_recording (s : NiDaqGeneric) (k : ℕ) : NiDaqGeneric :=
  { s with onStop := dictInsert k () s.onStop }

/-- `unregister_to_stop_recording(callback)` (lines 77-80). -/
def unregister_to_stop_recording (s : NiDaqGeneric) (k : ℕ) : NiDaqGeneric :=
  { s with onStop := if k ∈ dictKeys s.onStop then dictErase k s.onStop else s.onStop }

/-- `start_recording()` (lines 82-92).  `Except.error` models the
`RuntimeError("Already recording")` raise on line 85: the raise is the first
statement, so the object is untouched and no callback runs.  Otherwise, in
statement order: notify every start callback (lines 87-88), `_reset_data`
allocates a fresh empty store and repoints `self._data` (line 90),
`_start_task` (line 91), set `_is_recording = True` (line 92). -/
def start_recording (s : NiDaqGeneric) : Except String (NiDaqGeneric × List Event) :=
  if s.isRecording then Except.error "Already recording"
  else
    Except.ok
      ({ s with
          heap := s.heap ++ [NiDaqData.empty]
          dataAddr := s.heap.length
          taskRunning := true
          isRecording := true },
        (dictKeys s.onStart).map Event.notifyStart ++ [Event.resetData, Event.taskStart])

/-- `stop_recording()` (lines 94-104).  A no-op when idle (lines 96-98).
Otherwise, in statement order: notify every stop callback passing `self._data`
— the live store reference `s.dataAddr`, not a copy (lines 100-101) — then
`_stop_task` (line 103) and `_is_recording = False` (line 104). -/
def stop_recording (s : NiDaqGeneric) : NiDaqGeneric × List Event :=
  if s.isRecording then
    ({ s with taskRunning := false, isRecording := false },
      (dictKeys s.onStop).map (fun k => Event.notifyStop k s.dataAddr) ++ [Event.taskStop])
  else (s, [])

/-- Property `data` (lines 106-109): `self._data.copy` — allocates a fresh
defensive copy of the current store and returns its address. -/
def dataProp (s : NiDaqGeneric) : NiDaqGeneric × ℕ :=
  ({ s with heap := s.heap ++ [storeOf s] }, s.heap.length)

/-- Lines 131-133 of `_data_has_arrived`: fetch the most recent block and
derive the start of the new time vector.  `prev_t[-1]` on an empty previous
time vector would raise `IndexError`. -/
def t0Res (s : NiDaqGeneric) : Except String ℚ :=
  match (storeOf s).sample_block_last with
  | none => Except.ok 0
  | some pb =>
    match pb.1.getLast? with
    | none => Except.error "IndexError"
    | some pl => Except.ok (pl + dtOf s - (storeOf s).t0_offset)

/-- `_data_has_arrived(data)` (lines 122-143): recompute `n_frames`
(line 128), `dt` (line 129), read the most recent block (line 131), derive
`t0` (line 133), build the time vector
`np.linspace(t0, t0 + time_between_samples - dt, n_frames)` (line 134),
append `(t, data)` to the store (line 136), and — only if the data-ready dict
is non-empty — re-fetch the just-appended block and notify every data-ready
callback with it (lines 138-141).  Returns the success indicator `1`
(line 143).  No statement consults `_is_recording`. -/
def data_has_arrived (s : NiDaqGeneric) (d : List (List ℚ)) :
    Except String (NiDaqGeneric × List Event × ℤ) :=
  match t0Res s with
  | Except.error e => Except.error e
  | Except.ok t0 =>
    match linspace t0 (t0 + s.timeBetweenSamples - dtOf s) (nFramesOf s) with
    | none => Except.error "ValueError"
    | some t =>
      let store2 := (storeOf s).add t d
      let evs :=
        if s.onDataReady.isEmpty then []
        else
          match store2.sample_block_last with
          | some pb2 => (dictKeys s.onDataReady).map (fun k => Event.notifyDataReady k pb2.1 pb2.2)
          | none => []
      Except.ok ({ s with heap := s.heap.set s.dataAddr store2 }, evs, 1)

/-- A sequence of hardware block deliveries, folded through
`_data_has_arrived` (the hardware is the sole serializer of block order). -/
def arriveAll (s : NiDaqGeneric) : List (List (List ℚ)) → Except String NiDaqGeneric
  | [] => Except.ok s
  | d :: ds =>
    match data_has_arrived s d with
    | Except.error e => Except.error e
    | Except.ok (s2, _, _) => arriveAll s2 ds

/-- Extract the callback identity of a data-ready notification event. -/
def drKey : Event → Option ℕ
  | Event.notifyDataReady k _ _ => some k
  | _ => none

/-- Extract the callback identity of a stop notification event. -/
def stKey : Event → Option ℕ
  | Event.notifyStop k _ => some k
  | _ => none

/-- What a callback may do to its own registry while being notified, for the
re-entrancy analysis of the fan-out loops (lines 87-88, 100-101, 140-141):
nothing, register a callback of the same event kind (some identity `k`), or
unregister one (the source guards the `del` with a membership test). -/
inductive CbEffect where
  | pass
  | registerSame (k : ℕ)
  | unregisterSame (k : ℕ)
deriving DecidableEq

/-- Apply a callback's registry mutation, with the register/unregister
semantics of lines 64-71. -/
def runEffect (e : CbEffect) (r : Registry CbEffect) : Registry CbEffect :=
  match e with
  | CbEffect.pass => r
  | CbEffect.registerSame k => dictInsert k CbEffect.pass r
  | CbEffect.unregisterSame k => if k ∈ dictKeys r then dictErase k r else r

/-- A registry mutation that cannot change the dict's size when the key set is
`K`: doing nothing, re-registering an already-present identity (overwrite in
place), or unregistering an absent one (guarded no-op). -/
def SafeEff (K : List ℕ) : CbEffect → Prop
  | CbEffect.pass => True
  | CbEffect.registerSame k => k ∈ K
  | CbEffect.unregisterSame k => k ∉ K

/-- One fan-out loop `for key in d.keys(): d[key](...)` (lines 87-88, 100-101,
140-141) with CPython's live dict-view iteration: the iterator captures the
dict's size at creation, and every `__next__` call — including the final one
that would otherwise end the loop — first raises
`RuntimeError: dictionary changed size during iteration` if the current size
differs.  `size0` is the captured size, `i` the iteration position, and the
fuel argument counts the remaining `__next__` calls (`size0 + 1` in total). -/
def notifyAux (size0 : ℕ) : ℕ → ℕ → Registry CbEffect → List ℕ →
    Except String (Registry CbEffect × List ℕ)
  | 0, _, r, invoked => Except.ok (r, invoked)
  | fuel + 1, i, r, invoked =>
    if List.length r ≠ size0 then
      Except.error "RuntimeError: dictionary changed size during iteration"
    else
      match List.get? r i with
      | none => Except.ok (r, invoked)
      | some (k, e) => notifyAux size0 fuel (i + 1) (runEffect e r) (invoked ++ [k])

/-- Run one notification fan-out over a registry whose callbacks may mutate
that same registry; returns the final registry and the identities invoked, or
the `RuntimeError` CPython raises. -/
def notifyAll (r : Registry CbEffect) : Except String (Registry CbEffect × List ℕ) :=
  notifyAux (List.length r) (List.length r + 1) 0 r []

/-- Recording state with one registered stop callback (identity 5) and one
recorded block, for the claim-4 analysis. -/
def exC4 : NiDaqGeneric :=
  { construct 1 2 1 with
      isRecording := true
      taskRunning := true
      onStop := [(5, ())]
      heap := [⟨[([0, 1/2], [[3, 4]])]⟩] }

/-- Recording state for the claim-5 analysis. -/
def exC5 : NiDaqGeneric :=
  { construct 1 2 1 with isRecording := true, taskRunning := true }

/-- Per-block sample spacing `dt = 1 / frame_rate` of a session recorded at
frame rate `fr`. -/
def dtQ (fr : ℤ) : ℚ := 1 / (fr : ℚ)

/-- The session invariant `_data_has_arrived` maintains on a store that began
empty: every block's time vector has `n` entries, the first block's first
timestamp is `0`, and each block's first timestamp is the previous block's
last timestamp plus `dt`. -/
def SessionInv (fr n : ℤ) (st : NiDaqData) : Prop :=
  (∀ b ∈ st.blocks, (b.1).length = n.toNat) ∧
  (∀ t0b d0, st.blocks.head? = some (t0b, d0) → t0b.head? = some 0) ∧
  List.Chain' (fun x y => (y.1).head? = some ((x.1).getLastD 0 + dtQ fr)) st.blocks

/-- The controller state after delivering two blocks to a fresh
`frame_rate = 2`, `time_between_samples = 1` controller. -/
def c2res : NiDaqGeneric :=
  (arriveAll (construct 1 2 1) [[[5, 6]], [[7, 8]]]).toOption.getD (construct 1 2 1)

/-! ### Supporting lemmas -/

theorem pyInt_intCast (n : ℤ) : pyInt ((n : ℚ)) = n := by
  simp [pyInt]

theorem getD_set_self {α : Type} : ∀ (l : List α) (i : ℕ) (a d : α), i < l.length →
    (l.set i a).getD i d = a
  | [], i, _, _, h => absurd h (by simp)
  | _ :: _, 0, _, _, _ => rfl
  | _ :: tl, i + 1, a, d, h => getD_set_self tl i a d (Nat.lt_of_succ_lt_succ h)

theorem getD_concat_length {α : Type} (l : List α) (a d : α) :
    (l ++ [a]).getD l.length d = a := by
  simp [List.getD_eq_getElem?_getD, List.getElem?_concat_length]

/-! ### Claim 3 -/

unseal Rat.mul Rat.add Rat.inv Rat.sub in
/-- C3 counterexample.  The claim says construction raises
`InvalidConfiguration` for a non-positive frame rate and for a non-integral
`frame_rate * time_between_samples`, and that otherwise samples-per-block is a
positive integer.  The source constructor (lines 10-38) contains no validation
and cannot raise: with `frame_rate = 0` it succeeds and yields
samples-per-block `0` (not positive), and with `frame_rate = 3`,
`time_between_samples = 1/2` (product `3/2`, not an integer) it succeeds and
yields `int(3/2) = 1`. -/
theorem claim3_counterexample :
    (construct 1 0 1).nSamplesPerBlock = 0 ∧
    ¬ 0 < (construct 1 0 1).nSamplesPerBlock ∧
    (construct 1 3 (1 / 2)).nSamplesPerBlock = 1 :=
  ⟨by decide, by decide, by decide⟩

/-- C3 (amended): construction never fails and performs no validation; for
every input it yields samples-per-block equal to the truncation toward zero of
`time_between_samples * frame_rate`; in particular when the product is an
integer `n` (the only configurations the spec calls valid), samples-per-block
is exactly `n`. -/
theorem claim3_amended :
    (∀ nc fr : ℤ, ∀ tbs : ℚ,
        (construct nc fr tbs).nSamplesPerBlock = pyInt (tbs * (fr : ℚ))) ∧
    (∀ nc fr : ℤ, ∀ tbs : ℚ, ∀ n : ℤ, tbs * (fr : ℚ) = (n : ℚ) →
        (construct nc fr tbs).nSamplesPerBlock = n) := by
  constructor
  · intro nc fr tbs
    rfl
  · intro nc fr tbs n h
    show pyInt (tbs * (fr : ℚ)) = n
    rw [h, pyInt_intCast]

unseal Rat.mul Rat.add Rat.inv Rat.sub in
/-- Witness for the amended claim 3 at `frame_rate = 10`,
`time_between_samples = 1`. -/
theorem claim3_amended_witness :
    (1 : ℚ) * ((10 : ℤ) : ℚ) = ((10 : ℤ) : ℚ) ∧
    (construct 1 10 1).nSamplesPerBlock = 10 :=
  ⟨by decide, claim3_amended.2 1 10 1 10 (by decide)⟩

/-! ### Claim 5 -/

/-- C5: calling `start_recording` while already recording raises
`RuntimeError("Already recording")` (line 85) with no side effects: the raise
is the first statement of the method, so no start callback is notified, the
store, the task and the state are untouched (the `Except.error` result carries
no new state or events). -/
theorem claim5_already_recording (s : NiDaqGeneric) (h : s.isRecording = true) :
    start_recording s = Except.error "Already recording" := by
  simp [start_recording, h]

/-- Witness for claim 5: a concrete recording controller. -/
theorem claim5_already_recording_witness :
    exC5.isRecording = true ∧ start_recording exC5 = Except.error "Already recording" :=
  ⟨rfl, claim5_already_recording exC5 rfl⟩

/-! ### Claim 9 -/

/-- C9: `stop_recording` (lines 94-104) never touches the data store: the heap
and the `self._data` reference are unchanged in both branches, the store's
contents — also as read through the `data` accessor's defensive copy — are
unchanged, and only the next successful `start_recording` repoints `self._data`
to a fresh empty store (line 90). -/
theorem claim9_stop_preserves_store (s : NiDaqGeneric) :
    (stop_recording s).1.heap = s.heap ∧
    (stop_recording s).1.dataAddr = s.dataAddr ∧
    storeOf (stop_recording s).1 = storeOf s ∧
    (dataProp (stop_recording s).1).1.heap.getD (dataProp (stop_recording s).1).2
        NiDaqData.empty = storeOf s ∧
    (∀ s2 evs, start_recording (stop_recording s).1 = Except.ok (s2, evs) →
        storeOf s2 = NiDaqData.empty) := by
  have h1 : (stop_recording s).1.heap = s.heap := by
    unfold stop_recording
    split <;> rfl
  have h2 : (stop_recording s).1.dataAddr = s.dataAddr := by
    unfold stop_recording
    split <;> rfl
  have h3 : storeOf (stop_recording s).1 = storeOf s := by
    unfold storeOf
    rw [h1, h2]
  refine ⟨h1, h2, h3, ?_, ?_⟩
  · show ((stop_recording s).1.heap ++ [storeOf (stop_recording s).1]).getD
        (stop_recording s).1.heap.length NiDaqData.empty = storeOf s
    rw [getD_concat_length, h3]
  · intro s2 evs hok
    have hx : (stop_recording s).1.isRecording = false := by
      unfold stop_recording
      split <;> simp_all
    unfold start_recording at hok
    rw [hx] at hok
    simp only [Bool.false_eq_true, if_false, Except.ok.injEq, Prod.mk.injEq] at hok
    obtain ⟨hs2, _⟩ := hok
    subst hs2
    show ((stop_recording s).1.heap ++ [NiDaqData.empty]).getD
        (stop_recording s).1.heap.length NiDaqData.empty = NiDaqData.empty
    exact getD_concat_length _ _ _

/-- Witness for claim 9: stopping an idle fresh controller, then starting. -/
theorem claim9_stop_preserves_store_witness :
    ∃ s2 evs, start_recording (stop_recording (construct 1 2 1)).1 = Except.ok (s2, evs) ∧
      storeOf s2 = NiDaqData.empty := by
  refine ⟨_, _, rfl, ?_⟩
  exact (claim9_stop_preserves_store (construct 1 2 1)).2.2.2.2 _ _ rfl

/-! ### Dictionary lemmas -/

theorem dictKeys_insert_of_mem {α : Type} (k : ℕ) (v : α) (r : Registry α)
    (h : k ∈ dictKeys r) : dictKeys (dictInsert k v r) = dictKeys r := by
  unfold dictInsert
  rw [if_pos h]
  unfold dictKeys
  rw [List.map_map]
  apply List.map_congr_left
  intro p _
  by_cases hp : p.1 = k <;> simp [hp]

theorem mem_dictKeys_insert {α : Type} (k : ℕ) (v : α) (r : Registry α) :
    k ∈ dictKeys (dictInsert k v r) := by
  by_cases h : k ∈ dictKeys r
  · rw [dictKeys_insert_of_mem k v r h]
    exact h
  · unfold dictInsert
    rw [if_neg h]
    simp [dictKeys]

theorem nodup_dictKeys_insert {α : Type} (k : ℕ) (v : α) (r : Registry α)
    (h : (dictKeys r).Nodup) : (dictKeys (dictInsert k v r)).Nodup := by
  by_cases hm : k ∈ dictKeys r
  · rw [dictKeys_insert_of_mem k v r hm]
    exact h
  · unfold dictInsert
    rw [if_neg hm]
    unfold dictKeys at h hm ⊢
    rw [List.map_append]
    simp [List.nodup_append, h, hm]

theorem entry_dictInsert {α : Type} (k : ℕ) (v : α) (r : Registry α) :
    ∀ p ∈ dictInsert k v r, p.1 = k → p = (k, v) := by
  intro p hp hpk
  unfold dictInsert at hp
  by_cases hm : k ∈ dictKeys r
  · rw [if_pos hm] at hp
    obtain ⟨q, _, hq⟩ := List.mem_map.1 hp
    by_cases hqk : q.1 = k
    · rw [if_pos hqk] at hq
      exact hq.symm
    · rw [if_neg hqk] at hq
      exact absurd (hq ▸ hpk) hqk
  · rw [if_neg hm] at hp
    rcases List.mem_append.1 hp with hin | hone
    · exact absurd (hpk ▸ List.mem_map_of_mem Prod.fst hin) hm
    · simpa using hone

theorem dictInsert_entries_fixed {α : Type} (k : ℕ) (v : α) (r : Registry α)
    (hm : k ∈ dictKeys r) (h : ∀ p ∈ r, p.1 = k → p = (k, v)) :
    dictInsert k v r = r := by
  simp only [dictInsert, if_pos hm]
  have : ∀ p ∈ r, (if p.1 = k then (k, v) else p) = p := by
    intro p hp
    by_cases hpk : p.1 = k
    · rw [if_pos hpk, h p hp hpk]
    · rw [if_neg hpk]
  rw [List.map_congr_left this]
  simp

theorem dictInsert_idem {α : Type} (k : ℕ) (v : α) (r : Registry α) :
    dictInsert k v (dictInsert k v r) = dictInsert k v r :=
  dictInsert_entries_fixed k v (dictInsert k v r) (mem_dictKeys_insert k v r)
    (entry_dictInsert k v r)

theorem not_mem_dictKeys_erase {α : Type} (k : ℕ) (r : Registry α) :
    k ∉ dictKeys (dictErase k r) := by
  simp only [dictErase, dictKeys, List.mem_map, List.mem_filter]
  rintro ⟨p, ⟨_, hne⟩, hpk⟩
  exact absurd hpk (by simpa using hne)

theorem dictInsert_ne_nil {α : Type} (k : ℕ) (v : α) (r : Registry α) :
    dictInsert k v r ≠ [] := by
  intro h
  have := mem_dictKeys_insert k v r
  rw [h] at this
  simp [dictKeys] at this

/-! ### Elimination of a successful block arrival -/

theorem data_has_arrived_ok {s : NiDaqGeneric} {d : List (List ℚ)}
    {s' : NiDaqGeneric} {evs : List Event} {ret : ℤ}
    (hok : data_has_arrived s d = Except.ok (s', evs, ret)) :
    ∃ t0 t, t0Res s = Except.ok t0 ∧
      linspace t0 (t0 + s.timeBetweenSamples - dtOf s) (nFramesOf s) = some t ∧
      s' = { s with heap := s.heap.set s.dataAddr ((storeOf s).add t d) } ∧
      evs = (if s.onDataReady.isEmpty then []
             else (dictKeys s.onDataReady).map (fun j => Event.notifyDataReady j t d)) ∧
      ret = 1 := by
  unfold data_has_arrived at hok
  split at hok
  next e h0 =>
    exact absurd hok (by simp)
  next t0 h0 =>
    split at hok
    next h1 =>
      exact absurd hok (by simp)
    next t h1 =>
      have hlast : ((storeOf s).add t d).sample_block_last = some (t, d) := by
        simp [NiDaqData.add, NiDaqData.sample_block_last, List.getLast?_concat]
      simp only [hlast, Except.ok.injEq, Prod.mk.injEq] at hok
      obtain ⟨hs', hevs, hret⟩ := hok
      exact ⟨t0, t, h0, h1, hs'.symm, hevs.symm, hret.symm⟩

theorem linspace_nonneg_some (a b : ℚ) (num : ℤ) (h : 0 ≤ num) :
    linspace a b num
      = some ((List.range num.toNat).map
          (fun (i : ℕ) => a + (i : ℚ) * (b - a) / ((num : ℚ) - 1))) := by
  simp [linspace, Int.not_lt.2 h]

/-! ### Claim 8 -/

/-- C8: `_data_has_arrived` (lines 122-143) never consults `_is_recording`:
for every controller state — idle or recording, in particular right after
`stop_recording` — a delivered block is appended to the referenced store and
the handler returns the success indicator `1`.  The hypotheses are exactly the
conditions under which the Python body itself does not raise: a non-negative
`n_frames` (else `np.linspace` raises `ValueError`), a non-empty previous time
vector if a previous block exists (else `prev_t[-1]` raises `IndexError`), and
a valid `self._data` reference. -/
theorem data_has_arrived_eq_of (s : NiDaqGeneric) (d : List (List ℚ)) (t0 : ℚ) (t : List ℚ)
    (h0 : t0Res s = Except.ok t0)
    (h1 : linspace t0 (t0 + s.timeBetweenSamples - dtOf s) (nFramesOf s) = some t) :
    data_has_arrived s d
      = Except.ok ({ s with heap := s.heap.set s.dataAddr ((storeOf s).add t d) },
          (if s.onDataReady.isEmpty then []
           else (dictKeys s.onDataReady).map (fun j => Event.notifyDataReady j t d)), 1) := by
  unfold data_has_arrived
  simp only [h0, h1, NiDaqData.sample_block_last, NiDaqData.add, List.getLast?_concat]

theorem t0Res_ok_of (s : NiDaqGeneric)
    (hlast : ∀ pb, (storeOf s).sample_block_last = some pb → pb.1 ≠ []) :
    ∃ t0, t0Res s = Except.ok t0 := by
  cases hsb : (storeOf s).sample_block_last with
  | none => exact ⟨0, by unfold t0Res; rw [hsb]⟩
  | some pb =>
    cases hpl : pb.1.getLast? with
    | none => exact absurd (List.getLast?_eq_none_iff.1 hpl) (hlast pb hsb)
    | some pl =>
      refine ⟨pl + dtOf s - (storeOf s).t0_offset, ?_⟩
      unfold t0Res
      rw [hsb]
      show (match pb.1.getLast? with
            | none => Except.error "IndexError"
            | some pl => Except.ok (pl + dtOf s - (storeOf s).t0_offset)) = _
      rw [hpl]

theorem claim8_handler_state_free (s : NiDaqGeneric) (d : List (List ℚ))
    (h0 : 0 ≤ nFramesOf s)
    (hlast : ∀ pb, (storeOf s).sample_block_last = some pb → pb.1 ≠ [])
    (haddr : s.dataAddr < s.heap.length) :
    ∃ s' evs t, data_has_arrived s d = Except.ok (s', evs, 1) ∧
      storeOf s' = (storeOf s).add t d ∧
      s'.isRecording = s.isRecording ∧
      s'.onStart = s.onStart ∧ s'.onDataReady = s.onDataReady ∧ s'.onStop = s.onStop := by
  obtain ⟨t0, ht0⟩ := t0Res_ok_of s hlast
  have h1 := linspace_nonneg_some t0 (t0 + s.timeBetweenSamples - dtOf s) (nFramesOf s) h0
  have hdha := data_has_arrived_eq_of s d t0 _ ht0 h1
  refine ⟨_, _, (List.range (nFramesOf s).toNat).map
      (fun (i : ℕ) => t0 + (i : ℚ) * ((t0 + s.timeBetweenSamples - dtOf s) - t0)
        / ((nFramesOf s : ℚ) - 1)),
    hdha, ?_, rfl, rfl, rfl, rfl⟩
  show ((s.heap.set s.dataAddr ((storeOf s).add _ d)).getD s.dataAddr NiDaqData.empty) = _
  rw [getD_set_self s.heap s.dataAddr _ NiDaqData.empty haddr]

unseal Rat.mul Rat.add Rat.inv Rat.sub in
/-- Witness for claim 8: a block arriving at an idle (never started, hence
"stopped") controller is appended and acknowledged with `1`. -/
theorem claim8_handler_state_free_witness :
    ∃ s' evs t, data_has_arrived (construct 1 2 1) [[5, 6]] = Except.ok (s', evs, 1) ∧
      storeOf s' = (storeOf (construct 1 2 1)).add t [[5, 6]] ∧
      s'.isRecording = (construct 1 2 1).isRecording ∧
      s'.onStart = (construct 1 2 1).onStart ∧
      s'.onDataReady = (construct 1 2 1).onDataReady ∧
      s'.onStop = (construct 1 2 1).onStop :=
  claim8_handler_state_free (construct 1 2 1) [[5, 6]] (by decide)
    (fun pb hpb => Option.noConfusion hpb) (by decide)

/-! ### Claim 7 -/

/-- C7: callback registration is keyed by identity (`id(callback)`, lines
64-71): registering the same callback twice is the same dict state as
registering it once, one subsequent data-arrival notifies that callback
exactly once, and after unregistering it a subsequent arrival does not notify
it at all. -/
theorem claim7_register_exactly_once (s : NiDaqGeneric) (k : ℕ) (d : List (List ℚ)) :
    register_to_data_ready (register_to_data_ready s k) k = register_to_data_ready s k ∧
    (∀ s' evs ret, (dictKeys s.onDataReady).Nodup →
        data_has_arrived (register_to_data_ready (register_to_data_ready s k) k) d
          = Except.ok (s', evs, ret) →
        (evs.filterMap drKey).count k = 1) ∧
    (∀ s' evs ret,
        data_has_arrived (unregister_to_data_ready s k) d = Except.ok (s', evs, ret) →
        (evs.filterMap drKey).count k = 0) := by
  have hreg : register_to_data_ready (register_to_data_ready s k) k
      = register_to_data_ready s k := by
    unfold register_to_data_ready
    rw [dictInsert_idem]
  refine ⟨hreg, ?_, ?_⟩
  · intro s' evs ret hnd hok
    rw [hreg] at hok
    obtain ⟨t0, t, _, _, _, hevs, _⟩ := data_has_arrived_ok hok
    have hne : (register_to_data_ready s k).onDataReady.isEmpty = false := by
      simp only [register_to_data_ready, List.isEmpty_eq_false]
      exact dictInsert_ne_nil k () s.onDataReady
    rw [hne] at hevs
    simp only [Bool.false_eq_true, if_false] at hevs
    rw [hevs, List.filterMap_map]
    have hsome : (drKey ∘ fun j => Event.notifyDataReady j t d) = some := by
      funext j
      rfl
    rw [hsome, List.filterMap_some]
    exact List.count_eq_one_of_mem (nodup_dictKeys_insert k () s.onDataReady hnd)
      (mem_dictKeys_insert k () s.onDataReady)
  · intro s' evs ret hok
    obtain ⟨t0, t, _, _, _, hevs, _⟩ := data_has_arrived_ok hok
    have hnk : k ∉ dictKeys (unregister_to_data_ready s k).onDataReady := by
      show k ∉ dictKeys (if k ∈ dictKeys s.onDataReady then dictErase k s.onDataReady
        else s.onDataReady)
      by_cases hm : k ∈ dictKeys s.onDataReady
      · rw [if_pos hm]
        exact not_mem_dictKeys_erase k s.onDataReady
      · rw [if_neg hm]
        exact hm
    rw [hevs]
    cases he : (unregister_to_data_ready s k).onDataReady.isEmpty with
    | true =>
      simp
    | false =>
      simp only [Bool.false_eq_true, if_false, List.filterMap_map]
      have hsome : (drKey ∘ fun j => Event.notifyDataReady j t d) = some := by
        funext j
        rfl
      rw [hsome, List.filterMap_some]
      exact List.count_eq_zero_of_not_mem hnk

unseal Rat.mul Rat.add Rat.inv Rat.sub in
/-- Witness for claim 7 on a fresh controller with callback identity 7. -/
theorem claim7_register_exactly_once_witness :
    (register_to_data_ready (register_to_data_ready (construct 1 2 1) 7) 7
      = register_to_data_ready (construct 1 2 1) 7) ∧
    (∃ s' evs ret,
      data_has_arrived (register_to_data_ready (register_to_data_ready (construct 1 2 1) 7) 7)
          [[5, 6]] = Except.ok (s', evs, ret) ∧
        (evs.filterMap drKey).count 7 = 1) ∧
    (∃ s' evs ret,
      data_has_arrived (unregister_to_data_ready (construct 1 2 1) 7) [[5, 6]]
          = Except.ok (s', evs, ret) ∧
        (evs.filterMap drKey).count 7 = 0) := by
  refine ⟨(claim7_register_exactly_once (construct 1 2 1) 7 [[5, 6]]).1, ⟨_, _, _, rfl, ?_⟩,
    ⟨_, _, _, rfl, ?_⟩⟩
  · exact (claim7_register_exactly_once (construct 1 2 1) 7 [[5, 6]]).2.1 _ _ _ (by decide) rfl
  · exact (claim7_register_exactly_once (construct 1 2 1) 7 [[5, 6]]).2.2 _ _ _ rfl

/-! ### Claim 4 -/

/-- C4 counterexample.  The claim says every stop callback "is passed a
snapshot/copy of the accumulated DataStore (not the live mutable store)"; the
source passes `self._data` itself (line 101).  At the concrete recording state
`exC4` (one registered stop callback, identity 5), the store address handed to
the callback IS the controller's live `dataAddr`, refuting the claim. -/
theorem claim4_counterexample :
    ¬ (∀ j a, Event.notifyStop j a ∈ (stop_recording exC4).2 → a ≠ exC4.dataAddr) := by
  intro h
  exact h 5 exC4.dataAddr (by decide) rfl

/-- C4 (amended): for `stop_recording` in the recording state (lines 94-104)
the effects occur in this order: (1) every registered stop callback is
notified exactly once and is passed the live store reference `self._data`
(not a copy), (2) the hardware task is stopped, (3) the state is set to
idle. -/
theorem claim4_stop_order_live_store (s : NiDaqGeneric) (hrec : s.isRecording = true)
    (hnd : (dictKeys s.onStop).Nodup) :
    stop_recording s
      = ({ s with taskRunning := false, isRecording := false },
         (dictKeys s.onStop).map (fun j => Event.notifyStop j s.dataAddr) ++ [Event.taskStop]) ∧
    (∀ j ∈ dictKeys s.onStop,
        ((stop_recording s).2.filterMap stKey).count j = 1) ∧
    (stop_recording s).1.isRecording = false := by
  have heq : stop_recording s
      = ({ s with taskRunning := false, isRecording := false },
         (dictKeys s.onStop).map (fun j => Event.notifyStop j s.dataAddr)
           ++ [Event.taskStop]) := by
    unfold stop_recording
    rw [if_pos hrec]
  refine ⟨heq, ?_, by rw [heq]⟩
  intro j hj
  rw [heq]
  show (((dictKeys s.onStop).map (fun j => Event.notifyStop j s.dataAddr)
      ++ [Event.taskStop]).filterMap stKey).count j = 1
  rw [List.filterMap_append, List.filterMap_map]
  have h1 : (stKey ∘ fun j => Event.notifyStop j s.dataAddr) = some := by
    funext j
    rfl
  rw [h1, List.filterMap_some]
  have h2 : List.filterMap stKey [Event.taskStop] = [] := rfl
  rw [h2, List.append_nil]
  exact List.count_eq_one_of_mem hnd hj

/-- Witness for the amended claim 4 at the concrete state `exC4`. -/
theorem claim4_stop_order_live_store_witness :
    ((stop_recording exC4).2.filterMap stKey).count 5 = 1 ∧
    (stop_recording exC4).1.isRecording = false :=
  ⟨(claim4_stop_order_live_store exC4 rfl (by decide)).2.1 5 (by decide),
   (claim4_stop_order_live_store exC4 rfl (by decide)).2.2⟩

/-! ### Claim 6 -/

/-- C6 counterexample.  The claim says a callback that registers or
unregisters a same-kind callback during notification cannot crash the
in-progress iteration because notify iterates a snapshot.  The source loops
over the live dict view (`for key in d.keys(): d[key](...)`, lines 87-88,
100-101, 140-141): a single callback (identity 7) that registers a NEW
callback (identity 9) makes the next iterator step raise
`RuntimeError: dictionary changed size during iteration`, and likewise a
callback that unregisters a present one. -/
theorem claim6_counterexample :
    notifyAll [(7, CbEffect.registerSame 9)]
        = Except.error "RuntimeError: dictionary changed size during iteration" ∧
    notifyAll [(3, CbEffect.pass), (7, CbEffect.unregisterSame 3)]
        = Except.error "RuntimeError: dictionary changed size during iteration" :=
  ⟨rfl, rfl⟩

theorem runEffect_keys (e : CbEffect) (r : Registry CbEffect)
    (hs : SafeEff (dictKeys r) e) : dictKeys (runEffect e r) = dictKeys r := by
  cases e with
  | pass => rfl
  | registerSame k => exact dictKeys_insert_of_mem k CbEffect.pass r hs
  | unregisterSame k =>
    show dictKeys (if k ∈ dictKeys r then dictErase k r else r) = dictKeys r
    rw [if_neg hs]

theorem runEffect_safe (e : CbEffect) (r : Registry CbEffect) (K : List ℕ)
    (hk : dictKeys r = K) (hs : ∀ p ∈ r, SafeEff K p.2) (he : SafeEff K e) :
    ∀ p ∈ runEffect e r, SafeEff K p.2 := by
  cases e with
  | pass => exact hs
  | registerSame k =>
    intro p hp
    show SafeEff K p.2
    have hm : k ∈ dictKeys r := hk ▸ he
    have hred : runEffect (CbEffect.registerSame k) r
        = List.map (fun p => if p.1 = k then (k, CbEffect.pass) else p) r := by
      show dictInsert k CbEffect.pass r = _
      unfold dictInsert
      rw [if_pos hm]
    rw [hred] at hp
    obtain ⟨q, hq, hfq⟩ := List.mem_map.1 hp
    by_cases hqk : q.1 = k
    · rw [if_pos hqk] at hfq
      rw [← hfq]
      trivial
    · rw [if_neg hqk] at hfq
      exact hfq ▸ hs q hq
  | unregisterSame k =>
    intro p hp
    show SafeEff K p.2
    have hm : k ∉ dictKeys r := fun h => he (hk ▸ h)
    have hred : runEffect (CbEffect.unregisterSame k) r = r := by
      show (if k ∈ dictKeys r then dictErase k r else r) = r
      rw [if_neg hm]
    rw [hred] at hp
    exact hs p hp

theorem notifyAux_safe (size0 : ℕ) (K : List ℕ) :
    ∀ (fuel i : ℕ) (r : Registry CbEffect) (invoked : List ℕ),
      List.length r = size0 → dictKeys r = K → (∀ p ∈ r, SafeEff K p.2) →
      size0 - i < fuel →
      ∃ r2, notifyAux size0 fuel i r invoked = Except.ok (r2, invoked ++ K.drop i)
  | 0, _, _, _, _, _, _, hfuel => absurd hfuel (by omega)
  | fuel + 1, i, r, invoked, hlen, hk, hs, hfuel => by
    have hKlen : K.length = size0 := by
      rw [← hk]
      simpa [dictKeys] using hlen
    unfold notifyAux
    rw [if_neg (by simp [hlen])]
    cases hget : List.get? r i with
    | none =>
      have hle : size0 ≤ i := hlen ▸ List.get?_eq_none.1 hget
      refine ⟨r, ?_⟩
      rw [List.drop_eq_nil_of_le (hKlen ▸ hle), List.append_nil]
    | some p =>
      obtain ⟨k, e⟩ := p
      have hi : i < size0 := hlen ▸ (List.get?_eq_some.1 hget).1
      have hmem : (k, e) ∈ r := List.get?_mem hget
      have he : SafeEff K e := hs (k, e) hmem
      have hkK : List.get? K i = some k := by
        rw [← hk]
        show List.get? (List.map Prod.fst r) i = some k
        rw [List.get?_map, hget]
        rfl
      have hlen2 : List.length (runEffect e r) = size0 := by
        have := runEffect_keys e r (hk ▸ he)
        have hlenkeys : (dictKeys (runEffect e r)).length = (dictKeys r).length := by
          rw [this]
        simpa [dictKeys] using hlenkeys.trans (by simpa [dictKeys] using hlen)
      obtain ⟨r2, hr2⟩ := notifyAux_safe size0 K fuel (i + 1) (runEffect e r)
        (invoked ++ [k]) hlen2 ((runEffect_keys e r (hk ▸ he)).trans hk)
        (runEffect_safe e r K hk hs he) (by omega)
      refine ⟨r2, ?_⟩
      show notifyAux size0 fuel (i + 1) (runEffect e r) (invoked ++ [k])
          = Except.ok (r2, invoked ++ K.drop i)
      rw [hr2]
      have hdrop : K.drop i = k :: K.drop (i + 1) := by
        rw [List.drop_eq_get_cons (hKlen ▸ hi)]
        have : K.get ⟨i, hKlen ▸ hi⟩ = k := by
          have := List.get?_eq_get (l := K) (hKlen ▸ hi)
          rw [this] at hkK
          exact Option.some.inj hkK
        rw [this]
      rw [hdrop]
      simp

/-- C6 (amended): the fan-out loops iterate the LIVE registry, not a
snapshot.  When every invoked callback's mutation leaves the dict's size
unchanged — re-registering an already-present identity, unregistering an
absent one, or not touching the registry — the iteration completes without
crashing and invokes exactly the identities registered at notify time, each
exactly once; a registration of a new identity or an unregistration of a
present one instead raises `RuntimeError` (see the counterexample). -/
theorem claim6_live_iteration_no_resize (r : Registry CbEffect)
    (hs : ∀ p ∈ r, SafeEff (dictKeys r) p.2) :
    (∃ r2, notifyAll r = Except.ok (r2, dictKeys r)) ∧
    ((dictKeys r).Nodup → ∀ j ∈ dictKeys r, (dictKeys r).count j = 1) := by
  constructor
  · have h := notifyAux_safe (List.length r) (dictKeys r) (List.length r + 1) 0 r []
      rfl rfl hs (by omega)
    simpa [notifyAll] using h
  · intro hnd j hj
    exact List.count_eq_one_of_mem hnd hj

/-- Witness for the amended claim 6: three callbacks whose re-entrant
mutations are all size-preserving. -/
theorem claim6_live_iteration_no_resize_witness :
    ∃ r2, notifyAll [(3, CbEffect.pass), (7, CbEffect.registerSame 3),
        (9, CbEffect.unregisterSame 12)] = Except.ok (r2, [3, 7, 9]) :=
  (claim6_live_iteration_no_resize
    [(3, CbEffect.pass), (7, CbEffect.registerSame 3), (9, CbEffect.unregisterSame 12)]
    (by
      intro p hp
      simp only [List.mem_cons, List.not_mem_nil, or_false] at hp
      rcases hp with rfl | rfl | rfl <;> simp [SafeEff, dictKeys])).1

/-! ### Claim 10 -/

theorem linspace_some_elim {a b : ℚ} {num : ℤ} {t : List ℚ}
    (h : linspace a b num = some t) :
    0 ≤ num ∧ t.length = num.toNat ∧
    t = (List.range num.toNat).map
        (fun (i : ℕ) => a + (i : ℚ) * (b - a) / ((num : ℚ) - 1)) := by
  unfold linspace at h
  split at h
  · exact absurd h (by simp)
  next hlt =>
    obtain rfl := Option.some.inj h
    exact ⟨Int.not_lt.1 hlt, by simp, rfl⟩

/-- C10: the `n_frames` recomputed inside the handler (line 128,
`int(frame_rate * time_between_samples)`) equals the `_n_samples_per_block`
fixed at construction (line 25, `int(time_between_samples * frame_rate)`);
no operation ever rewrites the configuration fields, so the agreement holds
on every reachable controller, and every successfully appended time vector
has exactly `_n_samples_per_block` entries. -/
theorem claim10_nframes_eq_samples_per_block :
    (∀ nc fr : ℤ, ∀ tbs : ℚ, configWF (construct nc fr tbs)) ∧
    (∀ s : NiDaqGeneric, configWF s →
      (∀ j, configWF (register_to_start_recording s j) ∧
            configWF (unregister_to_start_recording s j) ∧
            configWF (register_to_data_ready s j) ∧
            configWF (unregister_to_data_ready s j) ∧
            configWF (register_to_stop_recording s j) ∧
            configWF (unregister_to_stop_recording s j)) ∧
      configWF (stop_recording s).1 ∧
      (∀ s2 evs, start_recording s = Except.ok (s2, evs) → configWF s2) ∧
      (∀ d s' evs ret, s.dataAddr < s.heap.length →
        data_has_arrived s d = Except.ok (s', evs, ret) →
        nFramesOf s = s.nSamplesPerBlock ∧ configWF s' ∧
        ∃ t, storeOf s' = (storeOf s).add t d ∧ (t.length : ℤ) = s.nSamplesPerBlock)) := by
  constructor
  · intro nc fr tbs
    show pyInt ((fr : ℚ) * tbs) = pyInt (tbs * (fr : ℚ))
    rw [mul_comm]
  · intro s h
    refine ⟨fun j => ⟨h, h, h, h, h, h⟩, ?_, ?_, ?_⟩
    · unfold stop_recording
      split
      · exact h
      · exact h
    · intro s2 evs hok
      unfold start_recording at hok
      split at hok
      · exact absurd hok (by simp)
      · simp only [Except.ok.injEq, Prod.mk.injEq] at hok
        obtain ⟨hs2, _⟩ := hok
        rw [← hs2]
        exact h
    · intro d s' evs ret haddr hok
      obtain ⟨t0, t, _, hlin, hs', _, _⟩ := data_has_arrived_ok hok
      obtain ⟨hnum, hlent, _⟩ := linspace_some_elim hlin
      refine ⟨h, ?_, t, ?_, ?_⟩
      · rw [hs']
        exact h
      · rw [hs']
        show ((s.heap.set s.dataAddr ((storeOf s).add t d)).getD s.dataAddr NiDaqData.empty) = _
        rw [getD_set_self s.heap s.dataAddr _ NiDaqData.empty haddr]
      · rw [hlent, Int.toNat_of_nonneg hnum]
        exact h

unseal Rat.mul Rat.add Rat.inv Rat.sub in
/-- Witness for claim 10 on a fresh controller with `frame_rate = 2`,
`time_between_samples = 1`, one delivered block. -/
theorem claim10_nframes_eq_samples_per_block_witness :
    configWF (construct 1 2 1) ∧
    ∃ s' evs ret, data_has_arrived (construct 1 2 1) [[5, 6]] = Except.ok (s', evs, ret) ∧
      nFramesOf (construct 1 2 1) = (construct 1 2 1).nSamplesPerBlock ∧
      ∃ t, storeOf s' = (storeOf (construct 1 2 1)).add t [[5, 6]] ∧
        (t.length : ℤ) = (construct 1 2 1).nSamplesPerBlock := by
  have hwf : configWF (construct 1 2 1) :=
    claim10_nframes_eq_samples_per_block.1 1 2 1
  refine ⟨hwf, _, _, _, rfl, ?_⟩
  have h := (claim10_nframes_eq_samples_per_block.2 (construct 1 2 1) hwf).2.2.2
    [[5, 6]] _ _ _ (by decide) rfl
  exact ⟨h.1, h.2.2⟩

/-! ### Claim 1 -/

theorem t0Res_none (s : NiDaqGeneric) (hsb : (storeOf s).sample_block_last = none) :
    t0Res s = Except.ok 0 := by
  unfold t0Res
  rw [hsb]

theorem t0Res_some (s : NiDaqGeneric) (pt : List ℚ) (pd : List (List ℚ)) (pl : ℚ)
    (hsb : (storeOf s).sample_block_last = some (pt, pd)) (hpl : pt.getLast? = some pl) :
    t0Res s = Except.ok (pl + dtOf s - (storeOf s).t0_offset) := by
  unfold t0Res
  rw [hsb]
  show (match pt.getLast? with
        | none => Except.error "IndexError"
        | some pl => Except.ok (pl + dtOf s - (storeOf s).t0_offset)) = _
  rw [hpl]

theorem valid_config_step (fr n : ℤ) (tbs : ℚ) (hfr : 0 < fr)
    (hval : (n : ℚ) = (fr : ℚ) * tbs) (i : ℕ) (hi : (i : ℤ) < n) (a : ℚ) :
    a + (i : ℚ) * ((a + tbs - 1 / (fr : ℚ)) - a) / ((n : ℚ) - 1)
      = a + (i : ℚ) * (1 / (fr : ℚ)) := by
  have hfr0 : (fr : ℚ) ≠ 0 := Int.cast_ne_zero.2 (by omega)
  have htbs : tbs = (n : ℚ) / (fr : ℚ) := by
    rw [hval]
    field_simp
  have hsub : (a + tbs - 1 / (fr : ℚ)) - a = ((n : ℚ) - 1) / (fr : ℚ) := by
    rw [htbs]
    field_simp
    ring
  rw [hsub]
  by_cases hn1 : (n : ℚ) - 1 = 0
  · have hn : n = 1 := by
      have h1 : (n : ℚ) = 1 := by linarith
      exact_mod_cast h1
    have hi0 : i = 0 := by omega
    subst hi0
    simp
  · field_simp
    ring

theorem linspace_head (a b : ℚ) (num : ℤ) (t : List ℚ)
    (h : linspace a b num = some t) (h1 : 1 ≤ num) : t.head? = some a := by
  obtain ⟨_, hlen, hteq⟩ := linspace_some_elim h
  have hlt : 0 < t.length := by
    rw [hlen]
    omega
  rw [List.head?_eq_getElem?, List.getElem?_eq_getElem hlt]
  subst hteq
  simp

/-- C1: for every successful invocation of `_data_has_arrived` on a validly
configured controller (positive frame rate with
`n_frames = frame_rate * time_between_samples` an integer ≥ 1): if the store
is empty, the appended time vector has `n_frames` entries `i * dt`, starting
at `0` and ending at exactly `time_between_samples - dt`; if a previous block
exists, it starts at `previous_last_timestamp + dt - t0_offset` and is spaced
by the same rule (`dt` apart). -/
theorem claim1_time_vector (s : NiDaqGeneric) (d : List (List ℚ))
    (s' : NiDaqGeneric) (evs : List Event) (ret : ℤ)
    (hfr : 0 < s.frameRate)
    (hval : ((nFramesOf s : ℚ)) = (s.frameRate : ℚ) * s.timeBetweenSamples)
    (hn1 : 1 ≤ nFramesOf s)
    (haddr : s.dataAddr < s.heap.length)
    (hok : data_has_arrived s d = Except.ok (s', evs, ret)) :
    ∃ t, (storeOf s').blocks.getLast? = some (t, d) ∧
      t.length = (nFramesOf s).toNat ∧
      ((storeOf s).blocks = [] →
        (∀ i, ∀ hi : i < t.length, t.get ⟨i, hi⟩ = (i : ℚ) * dtOf s) ∧
        t.head? = some 0 ∧
        t.getLast? = some (s.timeBetweenSamples - dtOf s)) ∧
      (∀ pt pd pl, (storeOf s).sample_block_last = some (pt, pd) →
        pt.getLast? = some pl →
        (∀ i, ∀ hi : i < t.length,
          t.get ⟨i, hi⟩ = (pl + dtOf s - (storeOf s).t0_offset) + (i : ℚ) * dtOf s) ∧
        t.head? = some (pl + dtOf s - (storeOf s).t0_offset)) := by
  obtain ⟨t0, t, ht0, hlin, hs', _, _⟩ := data_has_arrived_ok hok
  obtain ⟨hnum, hlen, hteq⟩ := linspace_some_elim hlin
  have hget : ∀ i, ∀ hi : i < t.length, t.get ⟨i, hi⟩ = t0 + (i : ℚ) * dtOf s := by
    subst hteq
    intro i hi
    have hiZ : (i : ℤ) < nFramesOf s := by
      simp only [List.length_map, List.length_range] at hi
      omega
    have hv := valid_config_step s.frameRate (nFramesOf s) s.timeBetweenSamples hfr hval i hiZ t0
    rw [List.get_eq_getElem, List.getElem_map, List.getElem_range]
    unfold dtOf
    unfold dtOf at hv
    exact hv
  have hlast : (storeOf s').blocks.getLast? = some (t, d) := by
    rw [hs']
    show (((s.heap.set s.dataAddr ((storeOf s).add t d)).getD s.dataAddr
        NiDaqData.empty)).blocks.getLast? = _
    rw [getD_set_self s.heap s.dataAddr _ NiDaqData.empty haddr]
    exact List.getLast?_concat _
  have hhead : t.head? = some t0 := linspace_head _ _ _ _ hlin hn1
  refine ⟨t, hlast, hlen, ?_, ?_⟩
  · intro hempty
    have hsb : (storeOf s).sample_block_last = none := by
      unfold NiDaqData.sample_block_last
      rw [hempty]
      rfl
    have ht00 : t0 = 0 := by
      have := (t0Res_none s hsb).symm.trans ht0
      exact (Except.ok.inj this).symm
    subst ht00
    refine ⟨fun i hi => by rw [hget i hi, zero_add], by rw [hhead], ?_⟩
    have hlt : 0 < t.length := by
      rw [hlen]
      omega
    rw [List.getLast?_eq_getElem?, List.getElem?_eq_getElem (by omega)]
    have hfin : t.length - 1 < t.length := by omega
    have := hget (t.length - 1) hfin
    rw [List.get_eq_getElem] at this
    rw [this]
    have hcast : ((t.length - 1 : ℕ) : ℚ) = ((nFramesOf s : ℚ)) - 1 := by
      have hz : ((t.length - 1 : ℕ) : ℤ) = nFramesOf s - 1 := by
        rw [hlen]
        omega
      have hq : (((t.length - 1 : ℕ) : ℤ) : ℚ) = ((nFramesOf s : ℚ)) - 1 := by
        rw [hz]
        push_cast
        ring
      exact_mod_cast hq
    rw [zero_add, hcast]
    have hfr0 : (s.frameRate : ℚ) ≠ 0 := Int.cast_ne_zero.2 (by omega)
    have htbs : s.timeBetweenSamples = (nFramesOf s : ℚ) / (s.frameRate : ℚ) := by
      rw [hval]
      field_simp
    unfold dtOf
    rw [htbs]
    field_simp
  · intro pt pd pl hsb hpl
    have ht0v : t0 = pl + dtOf s - (storeOf s).t0_offset := by
      have := (t0Res_some s pt pd pl hsb hpl).symm.trans ht0
      exact (Except.ok.inj this).symm
    subst ht0v
    exact ⟨hget, hhead⟩

unseal Rat.mul Rat.add Rat.inv Rat.sub in
/-- Witness for claim 1: first block on a fresh controller with
`frame_rate = 10`, `time_between_samples = 1`. -/
theorem claim1_time_vector_witness :
    ∃ (s' : NiDaqGeneric) (evs : List Event) (ret : ℤ) (t : List ℚ),
      data_has_arrived (construct 1 10 1) [[0]] = Except.ok (s', evs, ret) ∧
      (storeOf s').blocks.getLast? = some (t, [[0]]) ∧
      t.length = (nFramesOf (construct 1 10 1)).toNat ∧
      t.head? = some 0 ∧
      t.getLast? = some ((construct 1 10 1).timeBetweenSamples - dtOf (construct 1 10 1)) := by
  obtain ⟨t, h1, h2, h3, _⟩ := claim1_time_vector (construct 1 10 1) [[0]] _ _ _
    (by decide) (by decide) (by decide) (by decide) rfl
  exact ⟨_, _, _, t, rfl, h1, h2, (h3 rfl).2.1, (h3 rfl).2.2⟩

/-! ### Claim 2 -/

theorem t0_offset_eq_zero (st : NiDaqData) (t0b : List ℚ) (d0 : List (List ℚ))
    (hb0 : st.blocks.head? = some (t0b, d0)) (h0 : t0b.head? = some 0) :
    st.t0_offset = 0 := by
  unfold NiDaqData.t0_offset
  rw [hb0]
  show t0b.headD 0 = 0
  rw [List.headD_eq_head?_getD, h0]
  rfl

theorem dha_preserves_inv (fr n : ℤ) (hn : 1 ≤ n)
    (s s' : NiDaqGeneric) (d : List (List ℚ)) (evs : List Event) (ret : ℤ)
    (hf : s.frameRate = fr) (hnf : nFramesOf s = n)
    (haddr : s.dataAddr < s.heap.length)
    (hinv : SessionInv fr n (storeOf s))
    (hok : data_has_arrived s d = Except.ok (s', evs, ret)) :
    s'.frameRate = fr ∧ nFramesOf s' = n ∧ s'.dataAddr < s'.heap.length ∧
    SessionInv fr n (storeOf s') := by
  obtain ⟨t0, t, ht0, hlin, hs', -, -⟩ := data_has_arrived_ok hok
  obtain ⟨hnum, hlen, -⟩ := linspace_some_elim hlin
  have hfr2 : s'.frameRate = fr := by
    rw [hs']
    exact hf
  have hnf2 : nFramesOf s' = n := by
    rw [hs']
    exact hnf
  have haddr2 : s'.dataAddr < s'.heap.length := by
    rw [hs']
    show s.dataAddr < (s.heap.set s.dataAddr _).length
    rw [List.length_set]
    exact haddr
  have hstore : storeOf s' = (storeOf s).add t d := by
    rw [hs']
    show ((s.heap.set s.dataAddr ((storeOf s).add t d)).getD s.dataAddr NiDaqData.empty) = _
    exact getD_set_self s.heap s.dataAddr _ NiDaqData.empty haddr
  have htlen : t.length = n.toNat := by
    rw [hlen, hnf]
  have hthead : t.head? = some t0 := linspace_head _ _ _ _ hlin (hnf ▸ hn)
  obtain ⟨hlens, hhead0, hchain⟩ := hinv
  refine ⟨hfr2, hnf2, haddr2, ?_⟩
  rw [hstore]
  have hadd : ((storeOf s).add t d).blocks = (storeOf s).blocks ++ [(t, d)] := rfl
  cases hsb : (storeOf s).sample_block_last with
  | none =>
    have hempty : (storeOf s).blocks = [] := by
      unfold NiDaqData.sample_block_last at hsb
      exact List.getLast?_eq_none_iff.1 hsb
    have ht00 : t0 = 0 := by
      have h := (t0Res_none s hsb).symm.trans ht0
      exact (Except.ok.inj h).symm
    subst ht00
    refine ⟨?_, ?_, ?_⟩
    · intro b hb
      rw [hadd, hempty, List.nil_append] at hb
      obtain rfl : b = (t, d) := by simpa using hb
      exact htlen
    · intro t0b d0 hh
      rw [hadd, hempty, List.nil_append] at hh
      obtain ⟨rfl, -⟩ : t = t0b ∧ d = d0 := by simpa using hh
      exact hthead
    · rw [hadd, hempty, List.nil_append]
      exact List.chain'_singleton _
  | some pb =>
    obtain ⟨pt, pd⟩ := pb
    have hne : (storeOf s).blocks ≠ [] := by
      intro hnil
      unfold NiDaqData.sample_block_last at hsb
      rw [hnil] at hsb
      exact absurd hsb (by simp)
    have hptmem : (pt, pd) ∈ (storeOf s).blocks := by
      unfold NiDaqData.sample_block_last at hsb
      exact List.mem_of_getLast?_eq_some hsb
    have hptne : pt ≠ [] := by
      intro hnil
      have := hlens (pt, pd) hptmem
      rw [hnil] at this
      simp at this
      omega
    have hpl : pt.getLast? = some (pt.getLast hptne) := List.getLast?_eq_getLast pt hptne
    have hoff : (storeOf s).t0_offset = 0 := by
      cases hb0 : (storeOf s).blocks.head? with
      | none => exact absurd (List.head?_eq_none_iff.1 hb0) hne
      | some b0 =>
        obtain ⟨t0b, d0⟩ := b0
        exact t0_offset_eq_zero (storeOf s) t0b d0 hb0 (hhead0 t0b d0 hb0)
    have ht0v : t0 = pt.getLast hptne + dtQ fr := by
      have h := (t0Res_some s pt pd (pt.getLast hptne) hsb hpl).symm.trans ht0
      have h2 := (Except.ok.inj h).symm
      rw [hoff, sub_zero] at h2
      rw [h2]
      unfold dtOf dtQ
      rw [hf]
    refine ⟨?_, ?_, ?_⟩
    · intro b hb
      rw [hadd] at hb
      rcases List.mem_append.1 hb with hin | hone
      · exact hlens b hin
      · obtain rfl : b = (t, d) := by simpa using hone
        exact htlen
    · intro t0b d0 hh
      rw [hadd, List.head?_append_of_ne_nil _ hne] at hh
      exact hhead0 t0b d0 hh
    · rw [hadd]
      refine List.chain'_append.2 ⟨hchain, List.chain'_singleton _, ?_⟩
      intro x hx y hy
      obtain rfl : (t, d) = y := by simpa using hy
      have hxval : (pt, pd) = x := by
        unfold NiDaqData.sample_block_last at hsb
        rw [hsb] at hx
        simpa using hx
      obtain rfl := hxval
      show t.head? = some (pt.getLastD 0 + dtQ fr)
      rw [hthead, ht0v, List.getLastD_eq_getLast?, hpl]
      rfl

theorem arriveAll_inv (fr n : ℤ) (hfr : 0 < fr) (hn : 1 ≤ n) :
    ∀ (ds : List (List (List ℚ))) (s s' : NiDaqGeneric),
      s.frameRate = fr → nFramesOf s = n → s.dataAddr < s.heap.length →
      SessionInv fr n (storeOf s) → arriveAll s ds = Except.ok s' →
      s'.frameRate = fr ∧ SessionInv fr n (storeOf s')
  | [], s, s', hf, hnf, haddr, hinv, hok => by
    unfold arriveAll at hok
    obtain rfl := Except.ok.inj hok
    exact ⟨hf, hinv⟩
  | dd :: ds, s, s', hf, hnf, haddr, hinv, hok => by
    unfold arriveAll at hok
    split at hok
    next e heq =>
      exact absurd hok (by simp)
    next s2 evs ret heq =>
      obtain ⟨hf2, hnf2, haddr2, hinv2⟩ :=
        dha_preserves_inv fr n hn s s2 dd evs ret hf hnf haddr hinv heq
      exact arriveAll_inv fr n hfr hn ds s2 s' hf2 hnf2 haddr2 hinv2 hok

/-- C2: within one session starting from an empty store (a freshly constructed
controller), for every sequence of delivered blocks each ending in a
successfully updated state: block `k`'s first timestamp equals block `k-1`'s
last timestamp plus `dt` for every `k > 0`, and block `0`'s first timestamp is
`0 - t0_offset` (the store's offset correction, which is `0` because the
session's zero-reference is its own first timestamp). -/
theorem claim2_timestamp_continuity (nc fr : ℤ) (tbs : ℚ)
    (ds : List (List (List ℚ))) (s' : NiDaqGeneric)
    (hfr : 0 < fr) (hn : 1 ≤ nFramesOf (construct nc fr tbs))
    (hok : arriveAll (construct nc fr tbs) ds = Except.ok s') :
    (∀ i, ∀ hi : i + 1 < (storeOf s').blocks.length,
      (((storeOf s').blocks.get ⟨i + 1, hi⟩).1).head?
        = some ((((storeOf s').blocks.get ⟨i, Nat.lt_of_succ_lt hi⟩).1).getLastD 0
            + dtOf s')) ∧
    (∀ t0b d0, (storeOf s').blocks.head? = some (t0b, d0) →
      t0b.head? = some (0 - (storeOf s').t0_offset)) := by
  have hinv0 : SessionInv fr (nFramesOf (construct nc fr tbs))
      (storeOf (construct nc fr tbs)) := by
    refine ⟨?_, ?_, ?_⟩
    · intro b hb
      exact absurd hb (by simp [storeOf, construct, NiDaqData.empty])
    · intro t0b d0 hh
      exact absurd hh (by simp [storeOf, construct, NiDaqData.empty])
    · show List.Chain' _ (storeOf (construct nc fr tbs)).blocks
      have : (storeOf (construct nc fr tbs)).blocks = [] := rfl
      rw [this]
      exact List.chain'_nil
  obtain ⟨hf', hinv⟩ := arriveAll_inv fr (nFramesOf (construct nc fr tbs)) hfr hn ds
    (construct nc fr tbs) s' rfl rfl (by show 0 < 1; omega) hinv0 hok
  obtain ⟨hlens, hhead0, hchain⟩ := hinv
  constructor
  · intro i hi
    have hdt : dtQ fr = dtOf s' := by
      unfold dtQ dtOf
      rw [hf']
    rw [← hdt]
    have h := List.chain'_iff_get.1 hchain i (by omega)
    exact h
  · intro t0b d0 hh
    have h0 : t0b.head? = some 0 := hhead0 t0b d0 hh
    have hoff : (storeOf s').t0_offset = 0 := t0_offset_eq_zero (storeOf s') t0b d0 hh h0
    rw [hoff, sub_zero]
    exact h0

unseal Rat.mul Rat.add Rat.inv Rat.sub in
/-- Witness for claim 2: two blocks delivered at `frame_rate = 2`,
`time_between_samples = 1`; the second block starts one `dt` after the first
block's last timestamp, and block 0 starts at `0 - t0_offset`. -/
theorem claim2_timestamp_continuity_witness :
    (((storeOf c2res).blocks.get ⟨1, by decide⟩).1).head?
      = some ((((storeOf c2res).blocks.get ⟨0, by decide⟩).1).getLastD 0 + dtOf c2res) ∧
    ∃ t0b d0, (storeOf c2res).blocks.head? = some (t0b, d0) ∧
      t0b.head? = some (0 - (storeOf c2res).t0_offset) := by
  have h := claim2_timestamp_continuity 1 2 1 [[[5, 6]], [[7, 8]]] c2res
    (by decide) (by decide) rfl
  exact ⟨h.1 0 (by decide), _, _, rfl, h.2 _ _ rfl⟩

end LokomatFes
